import Mathlib

/-!
Verification development for `traits.py`, the trait-localization utility of
the arkhamdb-json-data repository.

Strings are modelled as lists of characters (`Str`), so that the Python
string primitives the script uses (`str.split`, `str.strip`, `str.join`)
become structurally recursive Lean functions with the exact CPython
semantics (no merging of separators, empty segments kept, whitespace
stripped only at the two ends).

File contents are modelled at the deserialization boundary: a pack file is
a list of `Card` records, a traits file is a list of `TraitEntry` records,
and the tab-separated text bridge is a `Str`.  The directory tree used by
`get_json_files` is modelled by `FSNode`, with relative paths resolved
against the node the function is given as the process working directory —
exactly as `os.path.isfile` and `os.listdir` resolve them.
-/

/-- Python strings, modelled as lists of characters. -/
abbrev Str := List Char

/-- Conversion from Lean string literals to the `Str` model. -/
def str (s : String) : Str := s.toList

/-- The whitespace characters stripped by Python's `str.strip()`
(ASCII fragment; the script's data uses only space, tab and newline). -/
def isSpace (c : Char) : Bool :=
  c = ' ' || c = '\t' || c = '\n' || c = '\r' || c = '\x0b' || c = '\x0c'

/-- Python `s.strip()`: drop leading and trailing whitespace. -/
def pyStrip (s : Str) : Str :=
  ((s.dropWhile isSpace).reverse.dropWhile isSpace).reverse

/-- Python `s.split(sep)` for a one-character separator: no merging of
adjacent separators, empty segments kept, `"".split(sep) == [""]`. -/
def pySplitAll (sep : Char) : Str → List Str
  | [] => [[]]
  | c :: rest =>
    if c = sep then [] :: pySplitAll sep rest
    else
      match pySplitAll sep rest with
      | [] => [[c]]
      | s :: ss => (c :: s) :: ss

/-- Python `sep.join(parts)`. -/
def pyJoin (sep : Str) : List Str → Str
  | [] => []
  | [x] => x
  | x :: y :: xs => x ++ sep ++ pyJoin sep (y :: xs)

/-- Lexicographic `<=` on strings by code point (Python string order). -/
def strLe : Str → Str → Bool
  | [], _ => true
  | _ :: _, [] => false
  | a :: as, b :: bs =>
    if a < b then true else if b < a then false else strLe as bs

/-- Lexicographic `<` on strings by code point (Python string order). -/
def strLt : Str → Str → Bool
  | [], [] => false
  | [], _ :: _ => true
  | _ :: _, [] => false
  | a :: as, b :: bs =>
    if a < b then true else if b < a then false else strLt as bs

/-- `_split_traits`: split a raw traits string on `'.'`, strip each piece,
drop the pieces that strip to nothing (`"Item. Weapon."` to
`["Item", "Weapon"]`). -/
def _split_traits (traits : Str) : List Str :=
  ((pySplitAll '.' traits).map pyStrip).filter (fun x => x ≠ [])

/-- `_merge_traits`: rebuild the raw traits string (`["Item", "Weapon"]` to
`"Item. Weapon."`); the empty list gives the empty string. -/
def _merge_traits (traits : List Str) : Str :=
  if traits = [] then [] else pyJoin (str ". ") traits ++ ['.']

/-- A card record, restricted to the fields `traits.py` reads or writes:
the mandatory `code` and the optional `traits` string. -/
structure Card where
  code : Str
  traits : Option Str
deriving DecidableEq, Repr

/-- An entry of a traits file: `{"code": ..., "name": ...}`. -/
structure TraitEntry where
  code : Str
  name : Str
deriving DecidableEq, Repr

/-- The Python exceptions the script can raise. -/
inductive PyErr where
  | ioError : Str → PyErr
  | keyError : Str → PyErr
  | valueError : Str → PyErr
deriving DecidableEq, Repr

/-- A Python dict from strings to strings, as an insertion-ordered
association list with unique keys. -/
abbrev Dict := List (Str × Str)

/-- `k in d` for the dict model. -/
def dictHas (m : Dict) (k : Str) : Bool := m.any (fun p => p.1 == k)

/-- `d[k] = v` when `k` is already a key: overwrite in place. -/
def dictSet (m : Dict) (k v : Str) : Dict :=
  m.map (fun p => if p.1 == k then (k, v) else p)

/-- `d[k] = v` for an arbitrary key: overwrite in place or append. -/
def dictInsert (m : Dict) (k v : Str) : Dict :=
  if dictHas m k then dictSet m k v else m ++ [(k, v)]

/-- `d[k]` as an option (`none` models a `KeyError`). -/
def dictGet? (m : Dict) (k : Str) : Option Str :=
  (m.find? (fun p => p.1 == k)).map (·.2)

-- basic evaluation checks of the codec on the docstring examples
example : _split_traits (str "Item. Weapon.") = [str "Item", str "Weapon"] := by decide
example : _merge_traits [str "Item", str "Weapon"] = str "Item. Weapon." := by decide
example : _split_traits (str "") = [] := by decide
example : _merge_traits [] = str "" := by decide

/-! ### The directory tree and `get_json_files` -/

/-- A node of the file-system tree: a plain file, or a directory with a
named, ordered list of children (the order is the `os.listdir` order). -/
inductive FSNode where
  | file : FSNode
  | dir : List (Str × FSNode) → FSNode

/-- Look a name up among the children of a directory. -/
def childNode (cs : List (Str × FSNode)) (name : Str) : Option FSNode :=
  (cs.find? (fun p => p.1 == name)).map (·.2)

/-- Walk a list of path components down from a node. -/
def resolveParts : List Str → FSNode → Option FSNode
  | [], node => some node
  | name :: rest, .dir cs =>
    match childNode cs name with
    | some n => resolveParts rest n
    | none => none
  | _ :: _, .file => none

/-- Resolve a relative path (components separated by `'/'`) against the
node standing for the process working directory. -/
def resolvePath (cwd : FSNode) (p : Str) : Option FSNode :=
  resolveParts (pySplitAll '/' p) cwd

/-- `os.path.join` for the two-argument uses in the script. -/
def pathJoin (a b : Str) : Str := a ++ '/' :: b

/-- `os.path.isfile(p)`, with `p` relative to the working directory. -/
def isfile (cwd : FSNode) (p : Str) : Bool :=
  match resolvePath cwd p with
  | some .file => true
  | _ => false

/-- `os.path.isdir(p)`, with `p` relative to the working directory. -/
def isdir (cwd : FSNode) (p : Str) : Bool :=
  match resolvePath cwd p with
  | some (.dir _) => true
  | _ => false

/-- `os.listdir(p)` on a path known to be a directory. -/
def listdirD (cwd : FSNode) (p : Str) : List Str :=
  match resolvePath cwd p with
  | some (.dir cs) => cs.map (·.1)
  | _ => []

/-- `os.listdir(p)` in general: raises `OSError` when `p` is not a
directory (`NotADirectoryError` / `FileNotFoundError`). -/
def listdirE (cwd : FSNode) (p : Str) : Except PyErr (List Str) :=
  match resolvePath cwd p with
  | some (.dir cs) => .ok (cs.map (·.1))
  | _ => .error (.ioError p)

/-- `os.path.basename`-like last component, as used by `os.path.splitext`
(which only ever looks at the part after the final separator). -/
def pyBasename (p : Str) : Str := (pySplitAll '/' p).getLastD []

/-- `os.path.splitext(p)[-1]`: the extension of the last path component —
everything from its final dot on, except that a dot inside the leading
run of dots of the component starts no extension (`".json"` has none). -/
def pyExt (p : Str) : Str :=
  let b := pyBasename p
  let r := b.reverse
  let afterRev := r.takeWhile (fun c => c ≠ '.')
  match r.dropWhile (fun c => c ≠ '.') with
  | [] => []
  | _ :: beforeRev =>
    if beforeRev.any (fun c => c ≠ '.') then '.' :: afterRev.reverse else []

/-- `os.path.splitext(p)[-1].lower() == '.json'`. -/
def hasJsonExt (p : Str) : Bool := (pyExt p).map Char.toLower == str ".json"

/-- `get_json_files(path, cycles)`: raise unless `path` is a directory;
take the entry names from `cycles` when that is a non-empty list and from
`os.listdir(path)` otherwise (`if not cycles:` is also true for `[]`).
An entry whose *name* is a `.json` file — tested relative to the working
directory, not joined onto `path` — is appended directly; any other entry
is listed as the subdirectory `path/entry` (raising when it is not one)
and its `.json` children are appended as `entry/child`. -/
def get_json_files (cwd : FSNode) (path : Str) (cycles : Option (List Str)) :
    Except PyErr (List Str) := do
  if ¬ isdir cwd path then
    throw (.ioError path)
  let cs := match cycles with
    | none => listdirD cwd path
    | some [] => listdirD cwd path
    | some cs => cs
  cs.foldlM (fun acc cycle => do
      if isfile cwd cycle && hasJsonExt cycle then
        pure (acc ++ [cycle])
      else
        let packs ← listdirE cwd (pathJoin path cycle)
        pure (acc ++ (packs.filter hasJsonExt).map (fun pack => pathJoin cycle pack)))
    []

-- evaluation checks of the file discovery
example :
    get_json_files
      (.dir [(str "pack", .dir [(str "core", .dir [(str "a.json", .file), (str "b.json", .file)])])])
      (str "pack") none = .ok [str "core/a.json", str "core/b.json"] := by rfl
example :
    get_json_files (.dir [(str "pack", .file)]) (str "pack") none
      = .error (.ioError (str "pack")) := by rfl

/-! ### Orders used by the sorts in the script -/

/-- String order as a proposition, for `List.insertionSort`. -/
def strLeP (a b : Str) : Prop := strLe a b = true

instance : DecidableRel strLeP :=
  fun a b => inferInstanceAs (Decidable (strLe a b = true))

/-- Order of `trans_data.sort(key=lambda x: x['code'])`: compare codes.
Python's `list.sort` is stable; in the insertion-sort formulation below,
inserting earlier elements into the sorted tail *before* equal later ones
(the non-strict test) reproduces that stability. -/
def codeLe (a b : TraitEntry) : Prop := strLe a.code b.code = true

instance : DecidableRel codeLe :=
  fun a b => inferInstanceAs (Decidable (strLe a.code b.code = true))

/-- Order of `data.sort()` on `{code, name}` pairs in `txt2json`
(CPython 2 dict comparison on two equal-keyed dicts: the `code` values
first, then the `name` values). -/
def entryLe (a b : TraitEntry) : Prop :=
  (strLt a.code b.code || (a.code == b.code && strLe a.name b.name)) = true

instance : DecidableRel entryLe :=
  fun a b =>
    inferInstanceAs
      (Decidable ((strLt a.code b.code || (a.code == b.code && strLe a.name b.name)) = true))

/-! ### `make_placeholder` -/

/-- The multiset of trait names collected by the `make_placeholder` loop:
every `_split_traits` result of every card that has a `traits` field,
across all English pack files. -/
def allTraits (files : List (List Card)) : List Str :=
  (files.map (fun cards => (cards.filterMap (·.traits)).map _split_traits)).flatten.flatten

/-- `make_placeholder`, from the loaded contents of the English pack
files to the master traits list it writes: the distinct trait names
(a Python `set`), sorted, each as a `{code, name}` pair with
`name == code`. -/
def make_placeholder (files : List (List Card)) : List TraitEntry :=
  let traits := List.insertionSort strLeP (allTraits files).dedup
  traits.map (fun x => { code := x, name := x })

example :
    make_placeholder [[⟨str "c1", some (str "Item.")⟩], [⟨str "c2", some (str "Item. Weapon.")⟩]]
      = [⟨str "Item", str "Item"⟩, ⟨str "Weapon", str "Weapon"⟩] := by decide

/-! ### `update_placeholder` -/

/-- `update_placeholder`, from the loaded master traits list and the
loaded per-language traits list to the per-language list it writes:
append every master entry whose code is not among the existing codes,
then sort by code. -/
def update_placeholder (master trans : List TraitEntry) : List TraitEntry :=
  let trans_codes := trans.map (·.code)
  let merged := trans ++ master.filter (fun item => !(trans_codes.contains item.code))
  List.insertionSort codeLe merged

example :
    update_placeholder
      [⟨str "Ally", str "Ally"⟩, ⟨str "Item", str "Item"⟩]
      [⟨str "Item", str "Objet"⟩]
      = [⟨str "Ally", str "Ally"⟩, ⟨str "Item", str "Objet"⟩] := by decide

/-! ### `update_traits` -/

/-- The Python expression `not json` in `update_traits` tests the imported
`json` module object, which is always truthy. -/
def json_module_truthy : Bool := true

/-- `traits_map`: fold the per-language trait entries into a dict,
`traits_map[item['code']] = item['name']` (a later duplicate code
overwrites an earlier one). -/
def buildTraitsMap (entries : List TraitEntry) : Dict :=
  entries.foldl (fun m e => dictInsert m e.code e.name) []

/-- The list comprehension `[traits_map[x] for x in traits_en]`: a missing
code raises `KeyError`. -/
def lookupTraits (tm : Dict) : List Str → Except PyErr (List Str)
  | [] => .ok []
  | x :: xs =>
    match dictGet? tm x with
    | none => .error (.keyError x)
    | some v =>
      match lookupTraits tm xs with
      | .error e => .error e
      | .ok vs => .ok (v :: vs)

/-- The body of the card loop of `update_traits`, for one translated card:
skip cards without `traits`; look the card's code up in the English pack
(first match of `code_en.index`), skipping on `ValueError`; read the
English card's `traits` (`KeyError` when absent); with `no_overwrite` set,
skip when the translated string already differs from the English one;
otherwise recompute the string through the trait map and report the card
as assigned. -/
def processCard (tm : Dict) (no_overwrite : Bool) (data_en : List Card) (item : Card) :
    Except PyErr (Card × Bool) :=
  match item.traits with
  | none => .ok (item, false)
  | some t =>
    match data_en.find? (fun c => c.code == item.code) with
    | none => .ok (item, false)
    | some item_en =>
      match item_en.traits with
      | none => .error (.keyError (str "traits"))
      | some t_en =>
        if no_overwrite && t ≠ t_en then .ok (item, false)
        else
          match lookupTraits tm (_split_traits t_en) with
          | .error e => .error e
          | .ok traits => .ok ({ item with traits := some (_merge_traits traits) }, true)

/-- The card loop of `update_traits` over one translated pack file:
returns the rewritten card list and the `changed` flag. -/
def processCards (tm : Dict) (no_overwrite : Bool) (data_en : List Card) :
    List Card → Except PyErr (List Card × Bool)
  | [] => .ok ([], false)
  | c :: rest =>
    match processCard tm no_overwrite data_en c with
    | .error e => .error e
    | .ok (c', ch) =>
      match processCards tm no_overwrite data_en rest with
      | .error e => .error e
      | .ok (rest', ch') => .ok (c' :: rest', ch || ch')

/-- The file loop of `update_traits`: each file is a triple of its
(translation-relative) path, the loaded English pack and the loaded
translated pack.  Files whose `changed` flag is set are written as the
loop goes; an exception stops the loop but the files already written stay
written, so the result is the written `(path, contents)` list together
with the exception, if any, that ended the run. -/
def runFiles (tm : Dict) (no_overwrite : Bool) :
    List (Str × List Card × List Card) → List (Str × List Card) →
    List (Str × List Card) × Option PyErr
  | [], acc => (acc, none)
  | (path, data_en, data_trans) :: rest, acc =>
    match processCards tm no_overwrite data_en data_trans with
    | .error e => (acc, some e)
    | .ok (data', changed) =>
      runFiles tm no_overwrite rest (if changed then acc ++ [(path, data')] else acc)

/-- `update_traits`, from the loaded per-language traits list and the
discovered files (each with its loaded English and translated contents)
to the files it writes and the exception, if any, that aborted it.
The guard `if not json:` is kept as written in the source: it tests the
`json` module object. -/
def update_traits (langTraits : List TraitEntry)
    (files : List (Str × List Card × List Card)) (no_overwrite : Bool) :
    List (Str × List Card) × Option PyErr :=
  let tm := buildTraitsMap langTraits
  if !json_module_truthy then ([], some (.ioError (str "no proper json files")))
  else runFiles tm no_overwrite files []

example :
    update_traits [⟨str "Item", str "Objet"⟩]
      [(str "core.json", [⟨str "01", some (str "Item.")⟩], [⟨str "01", some (str "Item.")⟩])]
      true
      = ([(str "core.json", [⟨str "01", some (str "Objet.")⟩])], none) := by rfl

/-! ### `json2txt` / `txt2json` -/

/-- `json2txt`, from the loaded entry list to the text it writes: one
`code<TAB>name<NEWLINE>` line per entry, in file order. -/
def json2txt (entries : List TraitEntry) : Str :=
  (entries.map (fun e => e.code ++ '\t' :: (e.name ++ ['\n']))).flatten

/-- The body of the line loop of `txt2json`: skip blank lines; unpack
`line.split('\t')` into exactly two pieces (`ValueError` otherwise);
strip both; assign only when the code is already a key. -/
def txtLine (m : Dict) (line : Str) : Except PyErr Dict :=
  if pyStrip line = [] then .ok m
  else
    match pySplitAll '\t' line with
    | [code, name] =>
      let code := pyStrip code
      let name := pyStrip name
      .ok (if dictHas m code then dictSet m code name else m)
    | _ => .error (.valueError (str "unpack"))

/-- The line loop of `txt2json`: fold `txtLine` over the lines,
propagating the first error. -/
def txtLines (m : Dict) : List Str → Except PyErr Dict
  | [] => .ok m
  | line :: rest =>
    match txtLine m line with
    | .error e => .error e
    | .ok m' => txtLines m' rest

/-- `txt2json`, from the loaded entry list of the existing JSON file and
the text-file contents to the entry list it writes back: build the dict
of known codes, run every line through `txtLine` (iterating the file
line by line is splitting the text on newlines; the trailing-newline
difference is erased by the strip and the blank-line skip), and sort the
resulting pairs. -/
def txt2json (entries : List TraitEntry) (text : Str) : Except PyErr (List TraitEntry) :=
  let init : Dict := entries.foldl (fun m e => dictInsert m e.code e.name) []
  match txtLines init (pySplitAll '\n' text) with
  | .error e => .error e
  | .ok m => .ok (List.insertionSort entryLe (m.map (fun p => ⟨p.1, p.2⟩)))

example : json2txt [⟨str "Item", str "Objet"⟩] = str "Item\tObjet\n" := by decide
example :
    txt2json [⟨str "Item", str "Item"⟩] (str "Item\tObjet\n")
      = .ok [⟨str "Item", str "Objet"⟩] := by rfl
example :
    txt2json [⟨str "Item", str "Item"⟩] (str "Ally\tAllié\n")
      = .ok [⟨str "Item", str "Item"⟩] := by rfl

/-! ### Lemmas about the string primitives -/

theorem pySplitAll_ne_nil (sep : Char) (s : Str) : pySplitAll sep s ≠ [] := by
  cases s with
  | nil => simp [pySplitAll]
  | cons c rest =>
    simp only [pySplitAll]
    split
    · simp
    · split <;> simp

/-- Splitting a string that starts with a separator-free prefix followed by
the separator peels the prefix off as the first segment. -/
theorem pySplitAll_append_sep (sep : Char) (a t : Str) (ha : sep ∉ a) :
    pySplitAll sep (a ++ sep :: t) = a :: pySplitAll sep t := by
  induction a with
  | nil => simp [pySplitAll]
  | cons c a ih =>
    have hc : c ≠ sep := by
      intro h; exact ha (h ▸ List.mem_cons_self c a)
    have ha' : sep ∉ a := fun h => ha (List.mem_cons_of_mem c h)
    simp only [List.cons_append, pySplitAll, if_neg hc]
    simp only [List.append_eq]
    rw [ih ha']

/-- Splitting a separator-free string yields that one segment. -/
theorem pySplitAll_of_not_mem (sep : Char) (a : Str) (ha : sep ∉ a) :
    pySplitAll sep a = [a] := by
  induction a with
  | nil => rfl
  | cons c a ih =>
    have hc : c ≠ sep := by
      intro h; exact ha (h ▸ List.mem_cons_self c a)
    have ha' : sep ∉ a := fun h => ha (List.mem_cons_of_mem c h)
    simp only [pySplitAll, if_neg hc, ih ha']

/-- A leading whitespace character is erased by `pyStrip`. -/
theorem pyStrip_cons_space (c : Char) (s : Str) (hc : isSpace c = true) :
    pyStrip (c :: s) = pyStrip s := by
  simp [pyStrip, List.dropWhile_cons, hc]

theorem strLe_total : ∀ a b : Str, strLe a b = true ∨ strLe b a = true
  | [], _ => .inl rfl
  | _ :: _, [] => .inr rfl
  | a :: as, b :: bs => by
    rcases lt_trichotomy a b with h | h | h
    · left; simp [strLe, h]
    · subst h
      rcases strLe_total as bs with h' | h'
      · left; simp [strLe, lt_irrefl, h']
      · right; simp [strLe, lt_irrefl, h']
    · right; simp [strLe, h]

theorem strLe_trans : ∀ a b c : Str, strLe a b = true → strLe b c = true → strLe a c = true
  | [], _, _, _, _ => rfl
  | a :: as, [], _, h, _ => by simp [strLe] at h
  | a :: as, b :: bs, [], _, h => by simp [strLe] at h
  | a :: as, b :: bs, c :: cs, h1, h2 => by
    by_cases hab : a < b
    · by_cases hbc : b < c
      · have : a < c := lt_trans hab hbc
        simp [strLe, this]
      · by_cases hcb : c < b
        · simp [strLe, hbc, hcb] at h2
        · have hbc' : b = c := le_antisymm (not_lt.mp hcb) (not_lt.mp hbc)
          subst hbc'
          simp [strLe, hab]
    · by_cases hba : b < a
      · simp [strLe, hab, hba] at h1
      · have hab' : a = b := le_antisymm (not_lt.mp hba) (not_lt.mp hab)
        subst hab'
        simp only [strLe, lt_irrefl, if_false] at h1
        by_cases hac : a < c
        · simp [strLe, hac]
        · by_cases hca : c < a
          · simp [strLe, hac, hca] at h2
          · have hac' : a = c := le_antisymm (not_lt.mp hca) (not_lt.mp hac)
            subst hac'
            simp only [strLe, lt_irrefl, if_false] at h2 ⊢
            exact strLe_trans as bs cs h1 h2

instance : IsTotal Str strLeP := ⟨fun a b => strLe_total a b⟩
instance : IsTrans Str strLeP := ⟨fun a b c => strLe_trans a b c⟩
instance : IsTotal TraitEntry codeLe := ⟨fun a b => strLe_total a.code b.code⟩
instance : IsTrans TraitEntry codeLe := ⟨fun a b c => strLe_trans a.code b.code c.code⟩

/-! ### Lemmas about the trait codec -/

theorem merge_traits_cons_cons (a b : Str) (rest : List Str) :
    _merge_traits (a :: b :: rest) = a ++ '.' :: ' ' :: _merge_traits (b :: rest) := by
  have h1 : _merge_traits (a :: b :: rest)
      = (a ++ str ". " ++ pyJoin (str ". ") (b :: rest)) ++ ['.'] := by
    simp [_merge_traits, pyJoin]
  have h2 : _merge_traits (b :: rest) = pyJoin (str ". ") (b :: rest) ++ ['.'] := by
    simp [_merge_traits]
  have h3 : str ". " = ['.', ' '] := rfl
  rw [h1, h2, h3]
  simp

theorem split_traits_append_dot (a t : Str) (ha : '.' ∉ a) :
    _split_traits (a ++ '.' :: t)
      = (if pyStrip a = [] then [] else [pyStrip a]) ++ _split_traits t := by
  simp only [_split_traits, pySplitAll_append_sep '.' a t ha, List.map_cons, List.filter_cons]
  by_cases h : pyStrip a = [] <;> simp [h]

theorem split_traits_space_cons (c : Char) (s : Str) (hc : isSpace c = true) :
    _split_traits (c :: s) = _split_traits s := by
  have hcd : c ≠ '.' := by
    intro h
    subst h
    simp [isSpace] at hc
  obtain ⟨s0, ss, hs⟩ : ∃ s0 ss, pySplitAll '.' s = s0 :: ss := by
    cases h : pySplitAll '.' s with
    | nil => exact absurd h (pySplitAll_ne_nil '.' s)
    | cons s0 ss => exact ⟨s0, ss, rfl⟩
  simp only [_split_traits, pySplitAll, if_neg hcd, hs, List.map_cons]
  rw [pyStrip_cons_space c s0 hc]

/-- Splitting undoes merging, for lists of non-empty, stripped, dot-free
names. -/
theorem split_merge_traits (l : List Str)
    (hl : ∀ x ∈ l, x ≠ [] ∧ pyStrip x = x ∧ '.' ∉ x) :
    _split_traits (_merge_traits l) = l := by
  induction l with
  | nil => decide
  | cons a rest ih =>
    obtain ⟨ha0, ha1, ha2⟩ := hl a (List.mem_cons_self a rest)
    cases rest with
    | nil =>
      have hm : _merge_traits [a] = a ++ '.' :: [] := by simp [_merge_traits, pyJoin]
      rw [hm, split_traits_append_dot a [] ha2, ha1, if_neg ha0]
      rw [show _split_traits [] = ([] : List Str) from rfl]
      simp
    | cons b rest' =>
      rw [merge_traits_cons_cons, split_traits_append_dot a _ ha2, ha1, if_neg ha0,
        split_traits_space_cons ' ' _ (by decide),
        ih (fun x hx => hl x (List.mem_cons_of_mem a hx))]
      simp

/-- C7: `_merge_traits` after `_split_traits` is the identity on every
string in normalized form — i.e. on every string `_merge_traits` produces
from a list of non-empty, whitespace-stripped, dot-free names — and the
empty forms map to each other: `_split_traits "" = []` and
`_merge_traits [] = ""`. -/
theorem C7_merge_split_round_trip :
    (∀ l : List Str, (∀ x ∈ l, x ≠ [] ∧ pyStrip x = x ∧ '.' ∉ x) →
        _merge_traits (_split_traits (_merge_traits l)) = _merge_traits l)
    ∧ _split_traits (str "") = [] ∧ _merge_traits [] = str "" := by
  refine ⟨fun l hl => ?_, by decide, by decide⟩
  rw [split_merge_traits l hl]

theorem C7_witness :
    _merge_traits (_split_traits (_merge_traits [str "Item", str "Weapon"]))
        = _merge_traits [str "Item", str "Weapon"]
    ∧ _split_traits (str "") = [] ∧ _merge_traits [] = str "" :=
  ⟨C7_merge_split_round_trip.1 [str "Item", str "Weapon"] (by decide),
   C7_merge_split_round_trip.2.1, C7_merge_split_round_trip.2.2⟩

/-- C9: the master traits list built by `make_placeholder` has as codes
exactly the distinct trait names split out of the `traits` field of every
card across all English pack files, with no duplicates, sorted
lexicographically, every `name` equal to its `code`; in particular two
pack files with traits `"Item."` and `"Item. Weapon."` give exactly the
entries `Item` and `Weapon` in alphabetical order. -/
theorem C9_make_placeholder (files : List (List Card)) :
    (∀ x : Str, x ∈ (make_placeholder files).map (·.code) ↔ x ∈ allTraits files)
    ∧ ((make_placeholder files).map (·.code)).Nodup
    ∧ List.Sorted strLeP ((make_placeholder files).map (·.code))
    ∧ (∀ e ∈ make_placeholder files, e.name = e.code)
    ∧ make_placeholder
        [[⟨str "c1", some (str "Item.")⟩], [⟨str "c2", some (str "Item. Weapon.")⟩]]
        = [⟨str "Item", str "Item"⟩, ⟨str "Weapon", str "Weapon"⟩] := by
  have hmap : (make_placeholder files).map (·.code)
      = List.insertionSort strLeP (allTraits files).dedup := by
    simp [make_placeholder, List.map_map, Function.comp_def]
  have hperm := List.perm_insertionSort strLeP (allTraits files).dedup
  refine ⟨?_, ?_, ?_, ?_, by decide⟩
  · intro x
    rw [hmap, hperm.mem_iff, List.mem_dedup]
  · rw [hmap]
    exact hperm.nodup_iff.mpr (List.nodup_dedup _)
  · rw [hmap]
    exact List.sorted_insertionSort strLeP _
  · intro e he
    obtain ⟨x, _, hx⟩ := List.mem_map.mp he
    rw [← hx]

theorem C9_witness :
    (⟨str "Item", str "Item"⟩ : TraitEntry).name
      = (⟨str "Item", str "Item"⟩ : TraitEntry).code :=
  (C9_make_placeholder [[⟨str "c1", some (str "Item.")⟩]]).2.2.2.1
    ⟨str "Item", str "Item"⟩ (by decide)

/-- C8: `update_placeholder` is idempotent and purely additive — running
it again on its own output changes nothing, every existing per-language
entry survives unchanged, any entry of the result whose code was already
present per-language is one of the original per-language entries (so a
translated name is never overwritten), and the result is sorted by code. -/
theorem C8_update_placeholder (master trans : List TraitEntry) :
    update_placeholder master (update_placeholder master trans) = update_placeholder master trans
    ∧ (∀ e ∈ trans, e ∈ update_placeholder master trans)
    ∧ (∀ e ∈ update_placeholder master trans, e.code ∈ trans.map (·.code) → e ∈ trans)
    ∧ List.Sorted codeLe (update_placeholder master trans) := by
  have hdef : update_placeholder master trans
      = List.insertionSort codeLe
          (trans ++ master.filter (fun item => !((trans.map (·.code)).contains item.code))) := by
    simp [update_placeholder]
  have hperm := List.perm_insertionSort codeLe
    (trans ++ master.filter (fun item => !((trans.map (·.code)).contains item.code)))
  have hsorted : List.Sorted codeLe (update_placeholder master trans) := by
    rw [hdef]
    exact List.sorted_insertionSort codeLe _
  have hpres : ∀ e ∈ trans, e ∈ update_placeholder master trans := by
    intro e he
    rw [hdef]
    exact hperm.mem_iff.mpr (List.mem_append_left _ he)
  refine ⟨?_, hpres, ?_, hsorted⟩
  · -- idempotence
    have hcov : ∀ item ∈ master,
        item.code ∈ (update_placeholder master trans).map (·.code) := by
      intro item hm
      by_cases h : item.code ∈ trans.map (·.code)
      · obtain ⟨e, he, hec⟩ := List.mem_map.mp h
        exact List.mem_map.mpr ⟨e, hpres e he, hec⟩
      · have hmem : item ∈ trans
            ++ master.filter (fun item => !((trans.map (·.code)).contains item.code)) := by
          refine List.mem_append_right _ (List.mem_filter.mpr ⟨hm, ?_⟩)
          cases hc : (trans.map (·.code)).contains item.code with
          | false => rfl
          | true => exact absurd (List.elem_iff.mp hc) h
        refine List.mem_map.mpr ⟨item, ?_, rfl⟩
        rw [hdef]
        exact hperm.mem_iff.mpr hmem
    have hfilter : master.filter
        (fun item => !(((update_placeholder master trans).map (·.code)).contains item.code))
        = [] := by
      refine List.filter_eq_nil_iff.mpr (fun item hm => ?_)
      simp only [Bool.not_eq_true', Bool.not_eq_false]
      obtain ⟨x, hx, hxc⟩ := List.mem_map.mp (hcov item hm)
      simp
      exact ⟨x, hx, hxc⟩
    set r := update_placeholder master trans with hr
    simp only [update_placeholder]
    rw [hfilter, List.append_nil]
    exact List.Sorted.insertionSort_eq hsorted
  · -- entries with an already-present code come from the original list
    intro e he hcode
    rw [hdef] at he
    rcases List.mem_append.mp (hperm.mem_iff.mp he) with h | h
    · exact h
    · exfalso
      obtain ⟨_, hpred⟩ := List.mem_filter.mp h
      have hc : (trans.map (·.code)).contains e.code = true := List.elem_iff.mpr hcode
      rw [hc] at hpred
      simp at hpred

theorem C8_witness :
    ((⟨str "Item", str "Objet"⟩ : TraitEntry)
        ∈ update_placeholder
            [⟨str "Ally", str "Ally"⟩, ⟨str "Item", str "Item"⟩]
            [⟨str "Item", str "Objet"⟩])
    ∧ (⟨str "Item", str "Objet"⟩ : TraitEntry) ∈ [(⟨str "Item", str "Objet"⟩ : TraitEntry)] :=
  ⟨(C8_update_placeholder
      [⟨str "Ally", str "Ally"⟩, ⟨str "Item", str "Item"⟩]
      [⟨str "Item", str "Objet"⟩]).2.1 ⟨str "Item", str "Objet"⟩ (by decide),
   (C8_update_placeholder
      [⟨str "Ally", str "Ally"⟩, ⟨str "Item", str "Item"⟩]
      [⟨str "Item", str "Objet"⟩]).2.2.1 ⟨str "Item", str "Objet"⟩ (by decide) (by decide)⟩

/-! ### Claims about `update_traits` -/

/-- C1: with the overwrite flag disabled, the card loop of `update_traits`
leaves a translated card untouched when its `traits` string already
differs from the English record's; when the two strings are equal it
rewrites the card's `traits` to `_merge_traits` of the English record's
split trait codes mapped through the language's code-to-name lookup. -/
theorem C1_update_traits_no_overwrite (langTraits : List TraitEntry) (data_en : List Card)
    (item item_en : Card) (t t_en : Str)
    (ht : item.traits = some t)
    (hfind : data_en.find? (fun c => c.code == item.code) = some item_en)
    (hten : item_en.traits = some t_en) :
    (t ≠ t_en → processCard (buildTraitsMap langTraits) true data_en item = .ok (item, false))
    ∧ (∀ names, t = t_en →
        lookupTraits (buildTraitsMap langTraits) (_split_traits t_en) = .ok names →
        processCard (buildTraitsMap langTraits) true data_en item
          = .ok ({ item with traits := some (_merge_traits names) }, true)) := by
  constructor
  · intro hne
    simp [processCard, ht, hfind, hten, hne]
  · intro names heq hlook
    subst heq
    simp [processCard, ht, hfind, hten, hlook]

theorem C1_witness :
    processCard (buildTraitsMap [⟨str "Item", str "Objet"⟩]) true
        [⟨str "01", some (str "Item.")⟩] ⟨str "01", some (str "Autre.")⟩
      = .ok (⟨str "01", some (str "Autre.")⟩, false)
    ∧ processCard (buildTraitsMap [⟨str "Item", str "Objet"⟩]) true
        [⟨str "01", some (str "Item.")⟩] ⟨str "01", some (str "Item.")⟩
      = .ok (⟨str "01", some (_merge_traits [str "Objet"])⟩, true) :=
  ⟨(C1_update_traits_no_overwrite [⟨str "Item", str "Objet"⟩] [⟨str "01", some (str "Item.")⟩]
      ⟨str "01", some (str "Autre.")⟩ ⟨str "01", some (str "Item.")⟩
      (str "Autre.") (str "Item.") rfl rfl rfl).1 (by decide),
   (C1_update_traits_no_overwrite [⟨str "Item", str "Objet"⟩] [⟨str "01", some (str "Item.")⟩]
      ⟨str "01", some (str "Item.")⟩ ⟨str "01", some (str "Item.")⟩
      (str "Item.") (str "Item.") rfl rfl rfl).2 [str "Objet"] rfl rfl⟩

/-- The file loop stops at the first file whose card loop raises: the
files before it keep their writes, the failing and later files are never
written. -/
theorem runFiles_append_error (tm : Dict) (noOv : Bool)
    (f : Str × List Card × List Card) (files2 : List (Str × List Card × List Card))
    (e : PyErr) (h2 : processCards tm noOv f.2.1 f.2.2 = .error e) :
    ∀ (files1 : List (Str × List Card × List Card)) (acc : List (Str × List Card)),
      (∀ g ∈ files1, ∃ r, processCards tm noOv g.2.1 g.2.2 = .ok r) →
      runFiles tm noOv (files1 ++ f :: files2) acc
        = ((runFiles tm noOv files1 acc).1, some e)
  | [], acc, _ => by
    obtain ⟨p, den, dtr⟩ := f
    simp only [List.nil_append, runFiles]
    rw [h2]
  | g :: gs, acc, h1 => by
    obtain ⟨⟨d, ch⟩, hok⟩ := h1 g (List.mem_cons_self g gs)
    obtain ⟨p, den, dtr⟩ := g
    simp only [List.cons_append, runFiles]
    rw [hok]
    exact runFiles_append_error tm noOv f files2 e h2 gs _
      (fun g hg => h1 g (List.mem_cons_of_mem _ hg))

/-- C2 (amended): when the card loop of some file raises a key-lookup
error, `update_traits` aborts the whole run with that error; but the
changed files processed *before* the failing one have already been
written and stay written — only the failing file and the files after it
are not written. -/
theorem C2_update_traits_abort (langTraits : List TraitEntry)
    (files1 : List (Str × List Card × List Card)) (f : Str × List Card × List Card)
    (files2 : List (Str × List Card × List Card)) (no_overwrite : Bool) (e : PyErr)
    (h1 : ∀ g ∈ files1,
      ∃ r, processCards (buildTraitsMap langTraits) no_overwrite g.2.1 g.2.2 = .ok r)
    (h2 : processCards (buildTraitsMap langTraits) no_overwrite f.2.1 f.2.2 = .error e) :
    update_traits langTraits (files1 ++ f :: files2) no_overwrite
      = ((update_traits langTraits files1 no_overwrite).1, some e) := by
  simp only [update_traits, json_module_truthy, Bool.not_true, Bool.false_eq_true,
    if_false]
  exact runFiles_append_error (buildTraitsMap langTraits) no_overwrite f files2 e h2 files1 [] h1

/-- C2 counterexample: a trait code (`Weapon`) missing from the language
dictionary makes the run abort with a `KeyError`, but the first pack file
— processed before the failure — has already been written: the claim that
such a run writes no pack files is false. -/
theorem C2_counterexample :
    update_traits [⟨str "Item", str "Objet"⟩]
      [(str "f1.json", [⟨str "01", some (str "Item.")⟩], [⟨str "01", some (str "Item.")⟩]),
       (str "f2.json", [⟨str "02", some (str "Weapon.")⟩], [⟨str "02", some (str "Weapon.")⟩])]
      true
      = ([(str "f1.json", [⟨str "01", some (str "Objet.")⟩])],
         some (.keyError (str "Weapon"))) := by rfl

theorem C2_witness :
    update_traits [⟨str "Item", str "Objet"⟩]
      [(str "f1.json", [⟨str "01", some (str "Item.")⟩], [⟨str "01", some (str "Item.")⟩]),
       (str "f2.json", [⟨str "02", some (str "Weapon.")⟩], [⟨str "02", some (str "Weapon.")⟩])]
      true
      = ((update_traits [⟨str "Item", str "Objet"⟩]
            [(str "f1.json", [⟨str "01", some (str "Item.")⟩],
              [⟨str "01", some (str "Item.")⟩])] true).1,
         some (.keyError (str "Weapon"))) :=
  C2_update_traits_abort [⟨str "Item", str "Objet"⟩]
    [(str "f1.json", [⟨str "01", some (str "Item.")⟩], [⟨str "01", some (str "Item.")⟩])]
    (str "f2.json", [⟨str "02", some (str "Weapon.")⟩], [⟨str "02", some (str "Weapon.")⟩])
    [] true (.keyError (str "Weapon"))
    (by
      intro g hg
      rcases List.mem_singleton.mp hg with rfl
      exact ⟨([⟨str "01", some (str "Objet.")⟩], true), rfl⟩)
    rfl

/-- The `changed` flag of the card loop is set exactly when some card of
the translated file was reassigned (whether or not the assigned string
differs from its previous value). -/
theorem processCards_changed_iff (tm : Dict) (noOv : Bool) (data_en : List Card) :
    ∀ (trans out : List Card) (ch : Bool),
      processCards tm noOv data_en trans = .ok (out, ch) →
      (ch = true ↔ ∃ item ∈ trans, ∃ c', processCard tm noOv data_en item = .ok (c', true))
  | [], out, ch, h => by
    simp only [processCards, Except.ok.injEq, Prod.mk.injEq] at h
    obtain ⟨-, hch⟩ := h
    subst hch
    simp
  | c :: rest, out, ch, h => by
    rw [processCards] at h
    cases hc : processCard tm noOv data_en c with
    | error e =>
      rw [hc] at h
      simp at h
    | ok pr =>
      obtain ⟨c', ch1⟩ := pr
      rw [hc] at h
      cases hr : processCards tm noOv data_en rest with
      | error e =>
        rw [hr] at h
        simp at h
      | ok pr2 =>
        obtain ⟨rest', ch2⟩ := pr2
        rw [hr] at h
        simp only [Except.ok.injEq, Prod.mk.injEq] at h
        obtain ⟨-, hch⟩ := h
        subst hch
        have ih := processCards_changed_iff tm noOv data_en rest rest' ch2 hr
        constructor
        · intro hor
          rcases Bool.or_eq_true_iff.mp hor with h1 | h2
          · exact ⟨c, List.mem_cons_self c rest, c', by rw [← h1]; exact hc⟩
          · obtain ⟨item, hitem, c'', hc''⟩ := ih.mp h2
            exact ⟨item, List.mem_cons_of_mem c hitem, c'', hc''⟩
        · rintro ⟨item, hitem, c'', hc''⟩
          rcases List.mem_cons.mp hitem with rfl | hitem'
          · rw [hc''] at hc
            simp only [Except.ok.injEq, Prod.mk.injEq] at hc
            rw [← hc.2]
            simp
          · have := ih.mpr ⟨item, hitem', c'', hc''⟩
            rw [this]
            simp

/-- C3 (amended): a translated pack file is written back exactly when at
least one of its cards had its `traits` field reassigned — the code sets
the `changed` flag on every reassignment, even when the recomputed string
equals the previous value, so `written back iff some stored value
actually changed` fails (see the counterexample). -/
theorem C3_write_iff_reassigned (langTraits : List TraitEntry) (p : Str)
    (data_en data_trans out : List Card) (ch : Bool) (noOv : Bool)
    (h : processCards (buildTraitsMap langTraits) noOv data_en data_trans = .ok (out, ch)) :
    ((update_traits langTraits [(p, data_en, data_trans)] noOv).1 ≠ []
      ↔ ∃ item ∈ data_trans, ∃ c',
          processCard (buildTraitsMap langTraits) noOv data_en item = .ok (c', true))
    ∧ update_traits langTraits [(p, data_en, data_trans)] noOv
        = ((if ch then [(p, out)] else []), none) := by
  have hrun : update_traits langTraits [(p, data_en, data_trans)] noOv
      = ((if ch then [(p, out)] else []), none) := by
    simp only [update_traits, json_module_truthy, Bool.not_true, Bool.false_eq_true, if_false,
      runFiles]
    rw [h]
    cases ch <;> simp [runFiles]
  refine ⟨?_, hrun⟩
  rw [hrun, ← processCards_changed_iff (buildTraitsMap langTraits) noOv data_en
    data_trans out ch h]
  cases ch <;> simp

/-- C3 counterexample: with the identity placeholder dictionary
(`Item -> Item`) and a translated card whose `traits` string equals the
English one, the recomputed string equals the previous value — no stored
traits value changes — yet the file is written back, refuting `written
back only if some card's traits string value actually changed`. -/
theorem C3_counterexample :
    update_traits [⟨str "Item", str "Item"⟩]
      [(str "core.json", [⟨str "01", some (str "Item.")⟩], [⟨str "01", some (str "Item.")⟩])]
      true
      = ([(str "core.json", [⟨str "01", some (str "Item.")⟩])], none) := by rfl

theorem C3_witness :
    ((update_traits [⟨str "Item", str "Item"⟩]
        [(str "core.json", [⟨str "01", some (str "Item.")⟩],
          [⟨str "01", some (str "Item.")⟩])] true).1 ≠ []
      ↔ ∃ item ∈ [(⟨str "01", some (str "Item.")⟩ : Card)], ∃ c',
          processCard (buildTraitsMap [⟨str "Item", str "Item"⟩]) true
            [⟨str "01", some (str "Item.")⟩] item = .ok (c', true))
    ∧ update_traits [⟨str "Item", str "Item"⟩]
        [(str "core.json", [⟨str "01", some (str "Item.")⟩],
          [⟨str "01", some (str "Item.")⟩])] true
        = ((if true then [(str "core.json", [⟨str "01", some (str "Item.")⟩])] else []), none) :=
  C3_write_iff_reassigned [⟨str "Item", str "Item"⟩] (str "core.json")
    [⟨str "01", some (str "Item.")⟩] [⟨str "01", some (str "Item.")⟩]
    [⟨str "01", some (str "Item.")⟩] true true rfl

/-- Every error of the trait-lookup comprehension is a `KeyError`. -/
theorem lookupTraits_error_keyError (tm : Dict) :
    ∀ (xs : List Str) (e : PyErr), lookupTraits tm xs = .error e → ∃ k, e = .keyError k
  | [], e, h => by simp [lookupTraits] at h
  | x :: xs, e, h => by
    rw [lookupTraits] at h
    cases hg : dictGet? tm x with
    | none =>
      rw [hg] at h
      simp at h
      exact ⟨x, h.symm⟩
    | some v =>
      rw [hg] at h
      cases hr : lookupTraits tm xs with
      | error e' =>
        rw [hr] at h
        simp at h
        exact h ▸ lookupTraits_error_keyError tm xs e' hr
      | ok vs =>
        rw [hr] at h
        simp at h

/-- Every error of the per-card body of `update_traits` is a `KeyError`. -/
theorem processCard_error_keyError (tm : Dict) (noOv : Bool) (data_en : List Card)
    (item : Card) (e : PyErr) (h : processCard tm noOv data_en item = .error e) :
    ∃ k, e = .keyError k := by
  unfold processCard at h
  split at h
  · simp at h
  · split at h
    · simp at h
    · split at h
      · simp at h
        exact ⟨str "traits", h.symm⟩
      · split at h
        · simp at h
        · split at h
          · rename_i e' heq
            simp at h
            exact h ▸ lookupTraits_error_keyError tm _ e' heq
          · simp at h

/-- Every error of the card loop of `update_traits` is a `KeyError`. -/
theorem processCards_error_keyError (tm : Dict) (noOv : Bool) (data_en : List Card) :
    ∀ (trans : List Card) (e : PyErr),
      processCards tm noOv data_en trans = .error e → ∃ k, e = .keyError k
  | [], e, h => by simp [processCards] at h
  | c :: rest, e, h => by
    rw [processCards] at h
    cases hc : processCard tm noOv data_en c with
    | error e' =>
      rw [hc] at h
      simp at h
      exact h ▸ processCard_error_keyError tm noOv data_en c e' hc
    | ok pr =>
      obtain ⟨c', ch⟩ := pr
      rw [hc] at h
      cases hr : processCards tm noOv data_en rest with
      | error e' =>
        rw [hr] at h
        simp at h
        exact h ▸ processCards_error_keyError tm noOv data_en rest e' hr
      | ok pr2 =>
        obtain ⟨r', ch2⟩ := pr2
        rw [hr] at h
        simp at h

/-- Every error of the file loop of `update_traits` is a `KeyError`. -/
theorem runFiles_error_keyError (tm : Dict) (noOv : Bool) :
    ∀ (files : List (Str × List Card × List Card)) (acc : List (Str × List Card)) (e : PyErr),
      (runFiles tm noOv files acc).2 = some e → ∃ k, e = .keyError k
  | [], acc, e, h => by simp [runFiles] at h
  | (p, den, dtr) :: rest, acc, e, h => by
    rw [runFiles] at h
    cases hc : processCards tm noOv den dtr with
    | error e' =>
      rw [hc] at h
      simp at h
      exact h ▸ processCards_error_keyError tm noOv den dtr e' hc
    | ok pr =>
      obtain ⟨d, ch⟩ := pr
      rw [hc] at h
      exact runFiles_error_keyError tm noOv rest (if ch then acc ++ [(p, d)] else acc) e h

/-- C10: the guard `if not json:` tests the imported `json` module, which
is always truthy, so the `IOError('no proper json files')` branch is
unreachable: every exception `update_traits` can end with is a
`KeyError`, never that `IOError`, and a run over an empty file list —
including the case where no translated pack file has an English
counterpart — is a no-op that writes nothing and raises nothing. -/
theorem C10_guard_unreachable (langTraits : List TraitEntry)
    (files : List (Str × List Card × List Card)) (noOv : Bool) :
    json_module_truthy = true
    ∧ (∀ e, (update_traits langTraits files noOv).2 = some e → ∃ k, e = PyErr.keyError k)
    ∧ update_traits langTraits [] noOv = ([], none) := by
  refine ⟨rfl, ?_, rfl⟩
  intro e h
  simp only [update_traits, json_module_truthy, Bool.not_true, Bool.false_eq_true, if_false] at h
  exact runFiles_error_keyError (buildTraitsMap langTraits) noOv files [] e h

/-! ### Claims about the text bridge -/

/-- `dictSet` never changes the key sequence of a dict. -/
theorem dictSet_keys (m : Dict) (k v : Str) :
    (dictSet m k v).map (·.1) = m.map (·.1) := by
  induction m with
  | nil => rfl
  | cons p rest ih =>
    show ((if p.1 == k then (k, v) else p) :: dictSet rest k v).map (·.1)
      = p.1 :: rest.map (·.1)
    rw [List.map_cons, ih]
    by_cases h : (p.1 == k) = true
    · rw [if_pos h, ← eq_of_beq h]
    · rw [if_neg h]

/-- C5 (amended): for each non-blank line, `txt2json` splits on the tab
characters and unpacks the result into exactly a code and a name —
raising a parse error both when the line has no tab and (amending the
claim) when it has more than one — strips both fields, and overwrites the
stored name only when the stripped code is already known, leaving the key
set unchanged; a line with an unknown code is silently ignored and adds
no entry, and a blank line is skipped. -/
theorem C5_txt2json_line (m : Dict) (line : Str) :
    (pyStrip line = [] → txtLine m line = .ok m)
    ∧ (∀ c n, pySplitAll '\t' line = [c, n] → pyStrip line ≠ [] →
        (dictHas m (pyStrip c) = true →
          txtLine m line = .ok (dictSet m (pyStrip c) (pyStrip n))
          ∧ (dictSet m (pyStrip c) (pyStrip n)).map (·.1) = m.map (·.1))
        ∧ (dictHas m (pyStrip c) = false → txtLine m line = .ok m))
    ∧ (∀ w, pySplitAll '\t' line = [w] → pyStrip line ≠ [] →
        ∃ msg, txtLine m line = .error (.valueError msg))
    ∧ (∀ parts, pySplitAll '\t' line = parts → parts.length ≥ 3 → pyStrip line ≠ [] →
        ∃ msg, txtLine m line = .error (.valueError msg)) := by
  refine ⟨?_, ?_, ?_, ?_⟩
  · intro h
    simp [txtLine, h]
  · intro c n hsplit hnb
    constructor
    · intro hhas
      refine ⟨?_, dictSet_keys m (pyStrip c) (pyStrip n)⟩
      simp [txtLine, hnb, hsplit, hhas]
    · intro hhas
      simp [txtLine, hnb, hsplit, hhas]
  · intro w hsplit hnb
    exact ⟨str "unpack", by simp [txtLine, hnb, hsplit]⟩
  · intro parts hsplit hlen hnb
    rcases parts with - | ⟨a, - | ⟨b, - | ⟨c3, rest⟩⟩⟩ <;> simp at hlen
    exact ⟨str "unpack", by simp [txtLine, hnb, hsplit]⟩

/-- A key present in a dict is found by `dictHas`. -/
theorem dictHas_of_mem (m : Dict) (k v : Str) (h : (k, v) ∈ m) : dictHas m k = true :=
  List.any_eq_true.mpr ⟨(k, v), h, by simp⟩

/-- Overwriting a key that is absent from a dict is the identity for
`dictSet`. -/
theorem dictSet_not_mem (k v : Str) :
    ∀ m : Dict, k ∉ m.map (·.1) → dictSet m k v = m
  | [], _ => rfl
  | p :: rest, h => by
    simp only [List.map_cons, List.mem_cons] at h
    push_neg at h
    show (if p.1 == k then (k, v) else p) :: dictSet rest k v = p :: rest
    have hne : ¬((p.1 == k) = true) := by
      intro hh
      exact h.1 (eq_of_beq hh).symm
    rw [if_neg hne, dictSet_not_mem k v rest h.2]

/-- Overwriting a key of a unique-keyed dict with the value it already
holds is the identity. -/
theorem dictSet_self (k v : Str) :
    ∀ m : Dict, (k, v) ∈ m → (m.map (·.1)).Nodup → dictSet m k v = m
  | [], hmem, _ => by simp at hmem
  | p :: rest, hmem, hnd => by
    rw [List.map_cons, List.nodup_cons] at hnd
    show (if p.1 == k then (k, v) else p) :: dictSet rest k v = p :: rest
    rcases List.mem_cons.mp hmem with heq | hmem'
    · rw [← heq, if_pos (by simp)]
      have hk : k ∉ rest.map (·.1) := by
        have h1 := hnd.1
        rw [← heq] at h1
        exact h1
      rw [dictSet_not_mem k v rest hk]
    · have hkin : k ∈ rest.map (·.1) := List.mem_map.mpr ⟨(k, v), hmem', rfl⟩
      have hk : ¬((p.1 == k) = true) := by
        intro hh
        apply hnd.1
        rw [eq_of_beq hh]
        exact hkin
      rw [if_neg hk, dictSet_self k v rest hmem' hnd.2]

/-- Folding `dictInsert` over entries with fresh, pairwise-distinct codes
appends them in order. -/
theorem foldl_dictInsert_fresh :
    ∀ (entries : List TraitEntry) (init : Dict),
      (∀ e ∈ entries, dictHas init e.code = false) →
      (entries.map (·.code)).Nodup →
      entries.foldl (fun m e => dictInsert m e.code e.name) init
        = init ++ entries.map (fun e => (e.code, e.name))
  | [], init, _, _ => by simp
  | e :: rest, init, hfresh, hnd => by
    rw [List.map_cons, List.nodup_cons] at hnd
    rw [List.foldl_cons]
    have h1 : dictInsert init e.code e.name = init ++ [(e.code, e.name)] := by
      have h := hfresh e (List.mem_cons_self e rest)
      rw [dictInsert, h]
      simp
    rw [h1]
    have hfresh' : ∀ e' ∈ rest, dictHas (init ++ [(e.code, e.name)]) e'.code = false := by
      intro e' he'
      have hne : (e.code == e'.code) = false := by
        refine beq_eq_false_iff_ne.mpr ?_
        intro hh
        apply hnd.1
        rw [hh]
        exact List.mem_map.mpr ⟨e', he', rfl⟩
      show (init ++ [(e.code, e.name)]).any (fun p => p.1 == e'.code) = false
      rw [List.any_append]
      rw [show init.any (fun p => p.1 == e'.code) = dictHas init e'.code from rfl]
      rw [hfresh e' (List.mem_cons_of_mem e he')]
      simp [hne]
    rw [foldl_dictInsert_fresh rest (init ++ [(e.code, e.name)]) hfresh' hnd.2]
    simp

/-- The text written by `json2txt` splits back into one line per entry,
provided codes and names contain no newline. -/
theorem json2txt_lines (e : TraitEntry) (es : List TraitEntry)
    (hc : '\n' ∉ e.code) (hn : '\n' ∉ e.name) :
    pySplitAll '\n' (json2txt (e :: es))
      = (e.code ++ '\t' :: e.name) :: pySplitAll '\n' (json2txt es) := by
  have h1 : json2txt (e :: es)
      = (e.code ++ '\t' :: e.name) ++ '\n' :: json2txt es := by
    simp [json2txt]
  rw [h1]
  apply pySplitAll_append_sep
  intro hmem
  rcases List.mem_append.mp hmem with h | h
  · exact hc h
  · rcases List.mem_cons.mp h with h' | h'
    · exact absurd h' (by decide)
    · exact hn h'

/-- A `code<TAB>name` line for a pair the dict already holds leaves the
dict unchanged (whether the line is treated as blank or processed). -/
theorem txtLine_entry_self (m : Dict) (c n : Str)
    (hc : pyStrip c = c) (hn : pyStrip n = n) (htc : '\t' ∉ c) (htn : '\t' ∉ n)
    (hmem : (c, n) ∈ m) (hnd : (m.map (·.1)).Nodup) :
    txtLine m (c ++ '\t' :: n) = .ok m := by
  by_cases hb : pyStrip (c ++ '\t' :: n) = []
  · simp [txtLine, hb]
  · have hsplit : pySplitAll '\t' (c ++ '\t' :: n) = [c, n] := by
      rw [pySplitAll_append_sep '\t' c n htc, pySplitAll_of_not_mem '\t' n htn]
    have hhas := dictHas_of_mem m c n hmem
    have hset := dictSet_self c n m hmem hnd
    simp [txtLine, hb, hsplit, hc, hn, hhas, hset]

/-- Feeding the lines `json2txt` produced for a sublist of entries back
into the line loop leaves the starting dict unchanged. -/
theorem txtLines_json2txt (m : Dict) (hnd : (m.map (·.1)).Nodup) :
    ∀ es : List TraitEntry,
      (∀ e ∈ es, pyStrip e.code = e.code ∧ pyStrip e.name = e.name
        ∧ '\t' ∉ e.code ∧ '\t' ∉ e.name ∧ '\n' ∉ e.code ∧ '\n' ∉ e.name
        ∧ (e.code, e.name) ∈ m) →
      txtLines m (pySplitAll '\n' (json2txt es)) = .ok m
  | [], _ => rfl
  | e :: es, h => by
    obtain ⟨h1, h2, h3, h4, h5, h6, h7⟩ := h e (List.mem_cons_self e es)
    rw [json2txt_lines e es h5 h6, txtLines,
      txtLine_entry_self m e.code e.name h1 h2 h3 h4 h7 hnd]
    exact txtLines_json2txt m hnd es (fun e' he' => h e' (List.mem_cons_of_mem e he'))

/-- C6 (amended): `json2txt` followed by `txt2json` on the same JSON file
returns exactly the original entries re-sorted by the (code, name) pair,
for entries with pairwise-distinct codes whose codes and names contain no
tab or newline and carry no leading or trailing whitespace; without those
conditions the round trip strips or rejects the data (see the
counterexample). -/
theorem C6_json_txt_round_trip (entries : List TraitEntry)
    (hnd : (entries.map (·.code)).Nodup)
    (hok : ∀ e ∈ entries, pyStrip e.code = e.code ∧ pyStrip e.name = e.name
      ∧ '\t' ∉ e.code ∧ '\t' ∉ e.name ∧ '\n' ∉ e.code ∧ '\n' ∉ e.name) :
    txt2json entries (json2txt entries) = .ok (List.insertionSort entryLe entries)
    ∧ (List.insertionSort entryLe entries).Perm entries := by
  have hinit : entries.foldl (fun m e => dictInsert m e.code e.name) []
      = entries.map (fun e => (e.code, e.name)) :=
    foldl_dictInsert_fresh entries [] (fun e _ => rfl) hnd
  have hkeys : (((entries.map fun e => (e.code, e.name)).map (·.1))).Nodup := by
    rw [List.map_map]
    exact hnd
  have hlines := txtLines_json2txt (entries.map fun e => (e.code, e.name)) hkeys entries
    (fun e he =>
      ⟨(hok e he).1, (hok e he).2.1, (hok e he).2.2.1, (hok e he).2.2.2.1,
       (hok e he).2.2.2.2.1, (hok e he).2.2.2.2.2, List.mem_map_of_mem _ he⟩)
  have hfinal : ((entries.map fun e => (e.code, e.name)).map fun p => (⟨p.1, p.2⟩ : TraitEntry))
      = entries := by
    rw [List.map_map]
    exact List.map_id entries
  constructor
  · simp only [txt2json]
    rw [hinit, hlines]
    show Except.ok (List.insertionSort entryLe
      ((entries.map fun e => (e.code, e.name)).map fun p => (⟨p.1, p.2⟩ : TraitEntry))) = _
    rw [hfinal]
  · exact List.perm_insertionSort entryLe entries

/-- C6 counterexample: a name with a leading space is stripped on the way
back through `txt2json`, so the round trip does not return the original
names unchanged: `[{a, " b"}]` comes back as `[{a, "b"}]`. -/
theorem C6_counterexample :
    txt2json [⟨str "a", str " b"⟩] (json2txt [⟨str "a", str " b"⟩])
      = .ok [⟨str "a", str "b"⟩]
    ∧ (⟨str "a", str "b"⟩ : TraitEntry) ≠ ⟨str "a", str " b"⟩ :=
  ⟨by rfl, by decide⟩

theorem C6_witness :
    txt2json [⟨str "b", str "y"⟩, ⟨str "a", str "x"⟩]
        (json2txt [⟨str "b", str "y"⟩, ⟨str "a", str "x"⟩])
      = .ok (List.insertionSort entryLe [⟨str "b", str "y"⟩, ⟨str "a", str "x"⟩])
    ∧ (List.insertionSort entryLe [⟨str "b", str "y"⟩, ⟨str "a", str "x"⟩]).Perm
        [⟨str "b", str "y"⟩, ⟨str "a", str "x"⟩] :=
  C6_json_txt_round_trip [⟨str "b", str "y"⟩, ⟨str "a", str "x"⟩]
    (by decide) (by decide)

/-- C5 counterexample: the claim says a line is split on its *first* tab,
which would accept `"a\tb\tc"` with name `"b\tc"`; the code splits on
every tab and the two-variable unpacking raises a `ValueError` instead. -/
theorem C5_counterexample :
    txt2json [⟨str "a", str "x"⟩] (str "a\tb\tc\n")
      = .error (.valueError (str "unpack")) := by rfl

theorem C5_witness :
    txtLine [(str "a", str "x")] (str "") = .ok [(str "a", str "x")]
    ∧ (txtLine [(str "a", str "x")] (str "a\tb")
        = .ok (dictSet [(str "a", str "x")] (pyStrip (str "a")) (pyStrip (str "b")))
       ∧ (dictSet [(str "a", str "x")] (pyStrip (str "a")) (pyStrip (str "b"))).map (·.1)
          = [(str "a", str "x")].map (·.1))
    ∧ txtLine [(str "a", str "x")] (str "z\ty") = .ok [(str "a", str "x")]
    ∧ (∃ msg, txtLine [(str "a", str "x")] (str "c") = .error (.valueError msg))
    ∧ (∃ msg, txtLine [(str "a", str "x")] (str "a\tb\tc") = .error (.valueError msg)) :=
  ⟨(C5_txt2json_line [(str "a", str "x")] (str "")).1 rfl,
   ((C5_txt2json_line [(str "a", str "x")] (str "a\tb")).2.1
      (str "a") (str "b") rfl (by decide)).1 rfl,
   ((C5_txt2json_line [(str "a", str "x")] (str "z\ty")).2.1
      (str "z") (str "y") rfl (by decide)).2 rfl,
   (C5_txt2json_line [(str "a", str "x")] (str "c")).2.2.1 (str "c") rfl (by decide),
   (C5_txt2json_line [(str "a", str "x")] (str "a\tb\tc")).2.2.2
      [str "a", str "b", str "c"] rfl (by decide) (by decide)⟩

/-! ### Claim about `get_json_files` -/

/-- The directory tree of the file-discovery example: one non-JSON
directory `core` holding `a.json` and `b.json`, plus one stray top-level
file `extra.json`. -/
def packTree : FSNode :=
  .dir [(str "core", .dir [(str "a.json", .file), (str "b.json", .file)]),
        (str "extra.json", .file)]

/-- A working directory holding only the root directory `pack`. -/
def exampleCwd : FSNode := .dir [(str "pack", packTree)]

/-- A working directory that *also* happens to hold a file named
`extra.json` next to `pack`, aliasing the stray entry's name. -/
def exampleCwdAlias : FSNode :=
  .dir [(str "pack", packTree), (str "extra.json", .file)]

/-- C4 (code bug): over a tree with one top-level non-JSON directory
(two `.json` children) and one stray top-level `.json` file the claim
promises exactly the three paths `core/a.json`, `core/b.json`,
`extra.json`.  The code tests `os.path.isfile(cycle)` on the bare entry
name — resolved against the process working directory, not joined under
the root — so the stray `extra.json` fails the file test, falls through
to `os.listdir('pack/extra.json')`, and the call raises instead of
returning three paths.  The second conjunct shows the root cause: once
the working directory coincidentally holds a file of the same name, the
very same tree yields the three claimed paths. -/
theorem C4_get_json_files_cwd_bug :
    get_json_files exampleCwd (str "pack") none
      = .error (.ioError (str "pack/extra.json"))
    ∧ get_json_files exampleCwdAlias (str "pack") none
      = .ok [str "core/a.json", str "core/b.json", str "extra.json"] :=
  ⟨by rfl, by rfl⟩

theorem C10_witness :
    (∃ k, PyErr.keyError (str "Item") = PyErr.keyError k)
    ∧ update_traits [] [] true = ([], none) :=
  ⟨(C10_guard_unreachable []
      [(str "f.json", [⟨str "01", some (str "Item.")⟩], [⟨str "01", some (str "Item.")⟩])]
      true).2.1 (PyErr.keyError (str "Item")) rfl,
   (C10_guard_unreachable [] [] true).2.2⟩
